import Mathlib

/-!
Shallow embedding of the result-set streaming engine of `mysql_async`
(`src/queryable/query_result/mod.rs`): the `QueryResult` reader
(`get_row_raw` / `get_row` / the `reduce`-based collection family /
`drop_result`) and the connection-level result-set classification
(`read_result_set`, `handle_local_infile`, `handle_result_set`).

The underlying byte-stream connection (packet framing, sequence-id handling,
status flags) and the row/column decoding library are external collaborators
of this module; they are modelled at their interface boundary as explicit
state on `ConnState` and as function-valued fields of `Protocol` / `Opts`.

Machine loops (`handle_local_infile`'s chunk-upload loop, `drop_result`'s
drain loop, the `reduce` row loop) are embedded with an explicit fuel
parameter so that every definition is structurally recursive and hence
evaluable by the kernel; fuel exhaustion is surfaced as an I/O error and
every caller supplies `incoming.length + 1` fuel, which is enough because
every non-final loop iteration consumes at least one incoming packet.
-/

namespace Mysql

/-- Decidable equality on `Except`, so that concrete runs of the embedding
can be checked by `decide`. -/
instance {ε α : Type} [DecidableEq ε] [DecidableEq α] : DecidableEq (Except ε α) := fun x y =>
  match x, y with
  | .ok a, .ok b =>
    if h : a = b then .isTrue (by rw [h]) else .isFalse (fun hc => h (by cases hc; rfl))
  | .error a, .error b =>
    if h : a = b then .isTrue (by rw [h]) else .isFalse (fun hc => h (by cases hc; rfl))
  | .ok _, .error _ => .isFalse (fun hc => by cases hc)
  | .error _, .ok _ => .isFalse (fun hc => by cases hc)

/-- Column definitions are opaque to this module (they are produced by the
external column-definition parser); a column is modelled as the raw bytes of
its column-definition packet. -/
abbrev Column := List Nat

/-- Decoded rows are opaque to this module (they are produced by the external
per-variant row decoder); a row is modelled as a list of naturals. -/
abbrev Row := List Nat

/-- Error kinds surfaced by this module, following section 7 of the design:
I/O failure, malformed packet, missing local-infile handler.  `metaMissing`
models the `expect("must be here")` panic in `get_row`. -/
inductive MyError where
  | io
  | badPacket
  | noLocalInfileHandler
  | metaMissing
deriving DecidableEq, Repr

/-- Result set metadata: a column set tagged with the protocol variant
(text or binary) that produced it. -/
inductive ResultSetMeta where
  | text (columns : List Column)
  | binary (columns : List Column)
deriving DecidableEq, Repr

/-- Columns of a result set meta. -/
def ResultSetMeta.columns : ResultSetMeta → List Column
  | .text columns => columns
  | .binary columns => columns

/-- A packet queued on the wire from the server.  `flags_update` models the
interface boundary with the connection collaborator: when the connection
reads and parses a packet carrying status flags (an OK/EOF packet), it
records the `SERVER_MORE_RESULTS_EXISTS` bit; packets that carry no status
flags (row packets, column definitions) leave the recorded bit unchanged. -/
structure WirePacket where
  bytes : List Nat
  flags_update : Option Bool
deriving DecidableEq, Repr

/-- Connection state visible to this module: the pending result
(`Option<ResultSetMeta>`, single source of truth for "a result set is
currently being streamed"), the queue of packets not yet read from the
server, the packets written to the server, the recorded
`SERVER_MORE_RESULTS_EXISTS` status bit, the capability flags, a counter of
`sync_seq_id` calls (sequence-id resynchronization is owned by the
connection collaborator; only whether it happened is observable here), and
the connection-level response metadata. -/
structure ConnState where
  pending_result : Option ResultSetMeta
  incoming : List WirePacket
  written : List (List Nat)
  status : Bool
  capabilities : Nat
  syncs : Nat
  last_insert_id_v : Option Nat
  affected_rows_v : Nat
  warnings_v : Nat
deriving DecidableEq, Repr

/-- Result of a fallible operation on the connection: the value or the error,
together with the connection state left behind (in Rust the connection
outlives an `Err` return, so errors preserve the state reached so far). -/
abbrev MResult (α : Type) := Except MyError α × ConnState

/-- Protocol variant (the `P: Protocol` type parameter of `QueryResult`):
the closed capability interface selected once at reader construction.
`result_set_meta` wraps a column set in the variant's `ResultSetMeta`
constructor; `is_last_result_set_packet` is the variant's end-of-result-set
predicate, parametrized by capability flags; `read_result_set_row` is the
variant's row decoder. -/
structure Protocol where
  result_set_meta : List Column → ResultSetMeta
  is_last_result_set_packet : Nat → List Nat → Bool
  read_result_set_row : List Nat → List Column → Except MyError Row

/-- Connection options: the optional registered local-infile handler, mapping
a requested file name to the byte contents it supplies (or an error). -/
structure Opts where
  local_infile_handler : Option (List Nat → Except MyError (List Nat))

/-- Modelled from the spec: the connection collaborator's `read_packet`
primitive, consuming the next queued packet (and recording the status flags
it carries, if any); reading from an exhausted queue is an I/O failure. -/
def read_packet (c : ConnState) : MResult (List Nat) :=
  match c.incoming with
  | [] => (.error .io, c)
  | p :: rest =>
    (.ok p.bytes, { c with incoming := rest, status := p.flags_update.getD c.status })

/-- Modelled from the spec: the connection collaborator's `write_packet`
primitive, appending one packet to the outgoing stream. -/
def write_packet (bytes : List Nat) (c : ConnState) : ConnState :=
  { c with written := c.written ++ [bytes] }

/-- Modelled from the spec: the connection collaborator's sequence-id
resynchronization; only the fact that it was invoked is observable here. -/
def sync_seq_id (c : ConnState) : ConnState :=
  { c with syncs := c.syncs + 1 }

/-- The connection's `set_pending_result` mutator. -/
def set_pending_result (r : Option ResultSetMeta) (c : ConnState) : ConnState :=
  { c with pending_result := r }

/-- Modelled from the spec (external `mysql_common` length-encoded integer
reader used by `handle_result_set`): one byte below `0xFB` is the value
itself; `0xFC`/`0xFD`/`0xFE` prefix a two-, three- or eight-byte
little-endian value;
anything else is malformed. -/
def read_lenenc_int : List Nat → Except MyError (Nat × List Nat)
  | [] => .error .badPacket
  | b :: rest =>
    if b < 0xFB then .ok (b, rest)
    else if b = 0xFC then
      match rest with
      | b0 :: b1 :: rest' => .ok (b0 + 256 * b1, rest')
      | _ => .error .badPacket
    else if b = 0xFD then
      match rest with
      | b0 :: b1 :: b2 :: rest' => .ok (b0 + 256 * b1 + 65536 * b2, rest')
      | _ => .error .badPacket
    else if b = 0xFE then
      match rest with
      | b0 :: b1 :: b2 :: b3 :: b4 :: b5 :: b6 :: b7 :: rest' =>
        .ok (b0 + 256 * (b1 + 256 * (b2 + 256 * (b3 + 256 * (b4 + 256 *
          (b5 + 256 * (b6 + 256 * b7)))))), rest')
      | _ => .error .badPacket
    else .error .badPacket

/-- Sequencing of fallible connection operations, modelling Rust's `?`
operator: on success continue with the value and the new state, on failure
propagate the error (the state reached so far is kept). -/
def mbind {α β : Type} (x : MResult α) (f : α → ConnState → MResult β) : MResult β :=
  match x with
  | (.error e, c) => (.error e, c)
  | (.ok a, c) => f a c

@[simp] lemma mbind_ok {α β : Type} (a : α) (c : ConnState)
    (f : α → ConnState → MResult β) : mbind (.ok a, c) f = f a c := rfl

@[simp] lemma mbind_error {α β : Type} (e : MyError) (c : ConnState)
    (f : α → ConnState → MResult β) : mbind (.error e, c) f = (.error e, c) := rfl

/-- Modelled from the spec: the repository's `read_column_defs` (outside this
module) reads the given number of column-definition packets from the wire
and builds the column set from them. -/
def read_column_defs : Nat → ConnState → MResult (List Column)
  | 0, c => (.ok [], c)
  | n + 1, c =>
    mbind (read_packet c) fun p c =>
      mbind (read_column_defs n c) fun ps c => (.ok (p :: ps), c)

/-- Modelled from the spec (external `mysql_common`
`parse_local_infile_packet`): strips the leading `0xFB` marker and yields the
requested file name; anything else is malformed. -/
def parse_local_infile_packet : List Nat → Except MyError (List Nat)
  | [] => .error .badPacket
  | b :: rest => if b = 0xFB then .ok rest else .error .badPacket

/-- The chunk-upload loop of `Conn::handle_local_infile`: read up to 4096
bytes from the byte source into the buffer, write the bytes read as one
packet, and stop once a read returned 0 bytes (so the final, empty packet is
always written).  The byte source is modelled as the remaining contents
list, each read returning `min 4096 remaining` bytes.  `fuel` makes the
recursion structural; `contents.length` fuel always suffices since every
continuing iteration consumes 4096 bytes of contents. -/
def uploadChunksF : Nat → List Nat → ConnState → ConnState
  | 0, contents, c => write_packet (contents.take 4096) c
  | fuel + 1, contents, c =>
    let chunk := contents.take 4096
    let c := write_packet chunk c
    if contents.isEmpty then c else uploadChunksF fuel (contents.drop 4096) c

/-- Conn::handle_local_infile: parse the file-request packet, look up the
registered handler (its absence is the fatal `NoLocalInfileHandler` error,
returned before anything is written), obtain the byte source from the
handler, stream it in 4096-byte chunks, read one acknowledgement packet and
clear the pending result. -/
def handle_local_infile (opts : Opts) (packet : List Nat) (c : ConnState) : MResult Unit :=
  match parse_local_infile_packet packet with
  | .error e => (.error e, c)
  | .ok file_name =>
    match opts.local_infile_handler with
    | none => (.error .noLocalInfileHandler, c)
    | some handler =>
      match handler file_name with
      | .error e => (.error e, c)
      | .ok contents =>
        mbind (read_packet (uploadChunksF contents.length contents c)) fun _ c =>
          (.ok (), set_pending_result none c)

/-- Conn::handle_result_set: read the length-encoded column count from the
header packet, read that many column definitions, then set the pending
result to the protocol variant's meta over those columns when the count is
positive, and clear it when the count is zero. -/
def handle_result_set (P : Protocol) (packet : List Nat) (c : ConnState) : MResult Unit :=
  match read_lenenc_int packet with
  | .error e => (.error e, c)
  | .ok (column_count, _) =>
    mbind (read_column_defs column_count c) fun columns c =>
      if 0 < column_count then
        (.ok (), set_pending_result (some (P.result_set_meta columns)) c)
      else
        (.ok (), set_pending_result none c)

/-- Conn::read_result_set: read the first packet of the server response and
classify it by its leading byte: `0x00` means no result set (clear pending
result), `0xFB` is a local-infile request, anything else is a
column-count-prefixed result-set header. -/
def read_result_set (P : Protocol) (opts : Opts) (c : ConnState) : MResult Unit :=
  mbind (read_packet c) fun packet c =>
    if packet.head? = some 0x00 then (.ok (), set_pending_result none c)
    else if packet.head? = some 0xFB then handle_local_infile opts packet c
    else handle_result_set P packet c

/-- QueryResult::meta: the connection's pending result. -/
def meta (c : ConnState) : Option ResultSetMeta :=
  c.pending_result

/-- QueryResult::has_rows: `true` iff a result set is pending. -/
def has_rows (c : ConnState) : Bool :=
  !(meta c).isNone

/-- QueryResult::is_empty: `true` iff no rows nor result sets remain. -/
def is_empty (c : ConnState) : Bool :=
  !has_rows c

/-- QueryResult::make_empty: clear the pending result. -/
def make_empty (c : ConnState) : ConnState :=
  set_pending_result none c

/-- QueryResult::more_results_exists: the `SERVER_MORE_RESULTS_EXISTS` bit of
the connection's status flags. -/
def more_results_exists (c : ConnState) : Bool :=
  c.status

/-- QueryResult::get_row_raw: if the reader is empty return `None` without
touching the connection; otherwise read one packet.  If the protocol variant
recognizes it as the terminal packet of the current result set, then either
(more results flagged) resynchronize the sequence id, read the next
result-set header and return `None`, or (no more results) clear the pending
result and return `None`.  Any other packet is returned raw. -/
def get_row_raw (P : Protocol) (opts : Opts) (c : ConnState) : MResult (Option (List Nat)) :=
  if is_empty c then (.ok none, c)
  else
    mbind (read_packet c) fun packet c =>
      if P.is_last_result_set_packet c.capabilities packet then
        if more_results_exists c then
          mbind (read_result_set P opts (sync_seq_id c)) fun _ c => (.ok none, c)
        else (.ok none, make_empty c)
      else (.ok (some packet), c)

/-- QueryResult::get_row: pull one raw packet and decode it against the
columns of the current result set meta; the `none` meta branch models the
`expect("must be here")` panic. -/
def get_row (P : Protocol) (opts : Opts) (c : ConnState) : MResult (Option Row) :=
  mbind (get_row_raw P opts c) fun packet? c =>
    match packet? with
    | none => (.ok none, c)
    | some packet =>
      match meta c with
      | none => (.error .metaMissing, c)
      | some m =>
        match P.read_result_set_row packet m.columns with
        | .error e => (.error e, c)
        | .ok row => (.ok (some row), c)

/-- The drain loop of QueryResult::drop_result: while a result set is
pending, pull and discard raw packets; at a boundary, clear the pending
result and, if more result sets are flagged, read the next result-set header
and continue, else stop.  `fuel` makes the loop structural; every iteration
except the final one consumes at least one incoming packet, so
`incoming.length + 1` fuel is never exhausted. -/
def drop_resultF (P : Protocol) (opts : Opts) : Nat → ConnState → MResult Unit
  | 0, c => (.error .io, c)
  | fuel + 1, c =>
    if has_rows c = false then
      let c := make_empty c
      if more_results_exists c then
        mbind (read_result_set P opts c) fun _ c => drop_resultF P opts fuel c
      else (.ok (), c)
    else
      mbind (get_row_raw P opts c) fun _ c => drop_resultF P opts fuel c

/-- QueryResult::drop_result. -/
def drop_result (P : Protocol) (opts : Opts) (c : ConnState) : MResult Unit :=
  drop_resultF P opts (c.incoming.length + 1) c

/-- The row loop of QueryResult::reduce: pull rows until `None`, folding each
into the accumulator.  `fuel` makes the loop structural; every continuing
iteration consumes at least one incoming packet, so `incoming.length + 1`
fuel is never exhausted. -/
def reduceLoopF {U : Type} (P : Protocol) (opts : Opts) (f : U → Row → U) :
    Nat → U → ConnState → MResult U
  | 0, _, c => (.error .io, c)
  | fuel + 1, acc, c =>
    mbind (get_row P opts c) fun r? c =>
      match r? with
      | none => (.ok acc, c)
      | some row => reduceLoopF P opts f fuel (f acc row) c

/-- QueryResult::reduce: if the reader is empty return `init`; otherwise fold
`fun acc row => f acc (conv row)` over the rows of the current result set up
to its boundary (`conv` models `crate::from_row::<T>`). -/
def reduce {T U : Type} (P : Protocol) (opts : Opts) (conv : Row → T) (init : U)
    (f : U → T → U) (c : ConnState) : MResult U :=
  if is_empty c then (.ok init, c)
  else reduceLoopF P opts (fun acc row => f acc (conv row)) (c.incoming.length + 1) init c

/-- QueryResult::collect: reduce with a vector accumulator, converting each
row with `from_row` (conversion failure is a panic in the source, so
`from_row` is total here). -/
def collect {R : Type} (P : Protocol) (opts : Opts) (from_row : Row → R)
    (c : ConnState) : MResult (List R) :=
  reduce P opts (fun (r : Row) => r) [] (fun acc row => acc ++ [from_row row]) c

/-- QueryResult::try_collect: like `collect` but threads each row through
`from_row_opt`, capturing a per-row conversion failure (carrying the
offending row, as `FromRowError` does) instead of aborting. -/
def try_collect {R : Type} (P : Protocol) (opts : Opts)
    (from_row_opt : Row → Except Row R) (c : ConnState) :
    MResult (List (Except Row R)) :=
  reduce P opts (fun (r : Row) => r) [] (fun acc row => acc ++ [from_row_opt row]) c

/-- QueryResult::collect_and_drop: collect the current result set, then drop
everything else. -/
def collect_and_drop {R : Type} (P : Protocol) (opts : Opts) (from_row : Row → R)
    (c : ConnState) : MResult (List R) :=
  mbind (collect P opts from_row c) fun output c =>
    mbind (drop_result P opts c) fun _ c => (.ok output, c)

/-- Specification harness: call `get_row` the given number of times,
collecting the returned values in order (stopping at the first error). -/
def runGetRows (P : Protocol) (opts : Opts) : Nat → ConnState → MResult (List (Option Row))
  | 0, c => (.ok [], c)
  | n + 1, c =>
    mbind (get_row P opts c) fun r c =>
      mbind (runGetRows P opts n c) fun rs c => (.ok (r :: rs), c)

/-- Specification harness: the sequence of packets the chunk-upload loop
writes for the given byte source, mirroring `uploadChunksF`. -/
def chunkPacketsF : Nat → List Nat → List (List Nat)
  | 0, contents => [contents.take 4096]
  | fuel + 1, contents =>
    if contents.isEmpty then [[]]
    else contents.take 4096 :: chunkPacketsF fuel (contents.drop 4096)

/-- Specification harness: the packets written when uploading a whole byte
source. -/
def chunk_packets (contents : List Nat) : List (List Nat) :=
  chunkPacketsF contents.length contents

/-- Concrete test protocol: text variant, terminal packets start with `0xFE`,
rows decode to their packet bytes. -/
def wprot : Protocol :=
  ⟨fun cols => .text cols,
   fun _caps p => decide (p.head? = some 0xFE),
   fun p _cols => .ok p⟩

/-- Concrete options with no local-infile handler. -/
def wopts : Opts := ⟨none⟩

/-- Concrete options whose local-infile handler always supplies one byte. -/
def wopts1 : Opts := ⟨some (fun _ => .ok [7])⟩

/-- Concrete one-byte row packet. -/
def wrow (b : Nat) : WirePacket := ⟨[b], none⟩

/-- Concrete terminal packet with the more-results flag clear. -/
def wtermF : WirePacket := ⟨[0xFE], some false⟩

/-- Concrete terminal packet with the more-results flag set. -/
def wtermT : WirePacket := ⟨[0xFE], some true⟩

/-- Concrete OK packet (leading byte `0x00`, more-results flag clear). -/
def wok : WirePacket := ⟨[0], some false⟩

/-- Concrete column-definition packet. -/
def wcol : WirePacket := ⟨[99], none⟩

/-- Concrete result-set header packet announcing one column. -/
def whdr : WirePacket := ⟨[1], none⟩

/-- Concrete result set meta. -/
def wmeta : ResultSetMeta := .text [[1]]

/-- Concrete connection streaming two rows then a terminal packet. -/
def wconn : ConnState := ⟨some wmeta, [wrow 10, wrow 20, wtermF], [], false, 0, 0, none, 0, 0⟩

/-- Concrete connection positioned at a terminal packet with more results. -/
def wconnM : ConnState := ⟨some wmeta, [wtermT, wok], [], false, 0, 5, none, 0, 0⟩

/-- The boundary state reached from `wconnM` after the terminal read and the
sequence-id resynchronization. -/
def wcB : ConnState := ⟨some wmeta, [wok], [], true, 0, 6, none, 0, 0⟩

/-- Concrete two-result-set wire: one row and a flagged terminal, then a
one-column result set of one row. -/
def wconn3 : ConnState :=
  ⟨some wmeta, [wrow 10, wtermT, whdr, wcol, wrow 30, wtermF], [], false, 0, 0, none, 0, 0⟩

/-- The state of `wconn3` after the first result set's boundary read the
second result set's header and column definition. -/
def wc1 : ConnState := ⟨some (.text [[99]]), [wrow 30, wtermF], [], true, 0, 1, none, 0, 0⟩

/-- The clean state after draining `wconn3` completely. -/
def wc2 : ConnState := ⟨none, [], [], false, 0, 1, none, 0, 0⟩

/-- Concrete connection awaiting a local-infile acknowledgement packet. -/
def wconnLI : ConnState := ⟨some wmeta, [wok], [], true, 0, 0, none, 0, 0⟩

/-- Concrete connection about to read a one-column result-set header. -/
def wconn5 : ConnState := ⟨none, [whdr, wcol], [], false, 0, 0, none, 0, 0⟩

/-- The state of `wconn5` after the header packet was read. -/
def wc5a : ConnState := ⟨none, [wcol], [], false, 0, 0, none, 0, 0⟩

/-- The state of `wconn5` after header and column definition were read. -/
def wc5b : ConnState := ⟨none, [], [], false, 0, 0, none, 0, 0⟩

/-- Concrete per-row converter that rejects exactly the row `[10]`. -/
def wconv : Row → Except Row Nat := fun r => if r = [10] then .error r else .ok 5

/-- The state of `wconn` after its first row packet was pulled. -/
def wc9 : ConnState := ⟨some wmeta, [wrow 20, wtermF], [], false, 0, 0, none, 0, 0⟩

/-- Concrete exhausted connection with the more-results flag still set. -/
def wc10 : ConnState := ⟨none, [wok], [], true, 0, 7, none, 0, 0⟩

/-- The state reached from `wcB` after reading the OK header of the (empty)
next result set. -/
def wcM1 : ConnState := ⟨none, [], [], false, 0, 6, none, 0, 0⟩

lemma read_packet_cons (c : ConnState) (p : WirePacket) (rest : List WirePacket)
    (hinc : c.incoming = p :: rest) :
    read_packet c =
      (.ok p.bytes, { c with incoming := rest, status := p.flags_update.getD c.status }) := by
  simp only [read_packet, hinc]

lemma read_packet_pending (c : ConnState) :
    (read_packet c).2.pending_result = c.pending_result := by
  unfold read_packet
  cases c.incoming <;> rfl

lemma is_empty_some {c : ConnState} {m : ResultSetMeta}
    (hm : c.pending_result = some m) : is_empty c = false := by
  simp [is_empty, has_rows, meta, hm]

lemma get_row_raw_row (P : Protocol) (opts : Opts) (c : ConnState) (m : ResultSetMeta)
    (p : WirePacket) (rest : List WirePacket)
    (hm : c.pending_result = some m)
    (hinc : c.incoming = p :: rest)
    (hrow : P.is_last_result_set_packet c.capabilities p.bytes = false)
    (hfl : p.flags_update = none) :
    get_row_raw P opts c = (.ok (some p.bytes), { c with incoming := rest }) := by
  unfold get_row_raw
  rw [is_empty_some hm, read_packet_cons c p rest hinc, hfl]
  simp [hrow]

lemma get_row_row (P : Protocol) (opts : Opts) (c : ConnState) (m : ResultSetMeta)
    (p : WirePacket) (rest : List WirePacket) (r : Row)
    (hm : c.pending_result = some m)
    (hinc : c.incoming = p :: rest)
    (hrow : P.is_last_result_set_packet c.capabilities p.bytes = false)
    (hfl : p.flags_update = none)
    (hdec : P.read_result_set_row p.bytes m.columns = .ok r) :
    get_row P opts c = (.ok (some r), { c with incoming := rest }) := by
  unfold get_row
  rw [get_row_raw_row P opts c m p rest hm hinc hrow hfl]
  simp only [meta]
  have : ({ c with incoming := rest } : ConnState).pending_result = some m := hm
  rw [this]
  simp [hdec]

lemma get_row_raw_boundary_last (P : Protocol) (opts : Opts) (c : ConnState)
    (m : ResultSetMeta) (term : WirePacket) (rest : List WirePacket)
    (hm : c.pending_result = some m)
    (hinc : c.incoming = term :: rest)
    (hterm : P.is_last_result_set_packet c.capabilities term.bytes = true)
    (hfl : term.flags_update = some false) :
    get_row_raw P opts c =
      (.ok none, { c with pending_result := none, incoming := rest, status := false }) := by
  unfold get_row_raw
  rw [is_empty_some hm, read_packet_cons c term rest hinc, hfl]
  simp [hterm, more_results_exists, make_empty, set_pending_result]

lemma get_row_raw_boundary_more (P : Protocol) (opts : Opts) (c : ConnState)
    (m : ResultSetMeta) (term : WirePacket) (rest : List WirePacket)
    (hm : c.pending_result = some m)
    (hinc : c.incoming = term :: rest)
    (hterm : P.is_last_result_set_packet c.capabilities term.bytes = true)
    (hfl : term.flags_update = some true) :
    get_row_raw P opts c =
      ((read_result_set P opts
          { c with incoming := rest, status := true, syncs := c.syncs + 1 }).1.map
            (fun _ => (none : Option (List Nat))),
       (read_result_set P opts
          { c with incoming := rest, status := true, syncs := c.syncs + 1 }).2) := by
  unfold get_row_raw
  rw [is_empty_some hm, read_packet_cons c term rest hinc, hfl]
  simp only [Option.getD, hterm, if_true, more_results_exists, sync_seq_id]
  rcases hr : read_result_set P opts
      { c with incoming := rest, status := true, syncs := c.syncs + 1 } with ⟨e | u, c₁⟩ <;>
    simp [hr, Except.map, hterm]

lemma get_row_raw_boundary_more_ok (P : Protocol) (opts : Opts) (c : ConnState)
    (m : ResultSetMeta) (term : WirePacket) (rest : List WirePacket)
    (u : Unit) (c₁ : ConnState)
    (hm : c.pending_result = some m)
    (hinc : c.incoming = term :: rest)
    (hterm : P.is_last_result_set_packet c.capabilities term.bytes = true)
    (hfl : term.flags_update = some true)
    (hnext : read_result_set P opts
        { c with incoming := rest, status := true, syncs := c.syncs + 1 } = (.ok u, c₁)) :
    get_row_raw P opts c = (.ok none, c₁) := by
  rw [get_row_raw_boundary_more P opts c m term rest hm hinc hterm hfl, hnext]
  rfl

lemma get_row_boundary_last (P : Protocol) (opts : Opts) (c : ConnState)
    (m : ResultSetMeta) (term : WirePacket) (rest : List WirePacket)
    (hm : c.pending_result = some m)
    (hinc : c.incoming = term :: rest)
    (hterm : P.is_last_result_set_packet c.capabilities term.bytes = true)
    (hfl : term.flags_update = some false) :
    get_row P opts c =
      (.ok none, { c with pending_result := none, incoming := rest, status := false }) := by
  unfold get_row
  rw [get_row_raw_boundary_last P opts c m term rest hm hinc hterm hfl]
  simp [mbind]

lemma get_row_boundary_more_ok (P : Protocol) (opts : Opts) (c : ConnState)
    (m : ResultSetMeta) (term : WirePacket) (rest : List WirePacket)
    (u : Unit) (c₁ : ConnState)
    (hm : c.pending_result = some m)
    (hinc : c.incoming = term :: rest)
    (hterm : P.is_last_result_set_packet c.capabilities term.bytes = true)
    (hfl : term.flags_update = some true)
    (hnext : read_result_set P opts
        { c with incoming := rest, status := true, syncs := c.syncs + 1 } = (.ok u, c₁)) :
    get_row P opts c = (.ok none, c₁) := by
  unfold get_row
  rw [get_row_raw_boundary_more_ok P opts c m term rest u c₁ hm hinc hterm hfl hnext]
  simp [mbind]

lemma runGetRows_rows (P : Protocol) (opts : Opts) (m : ResultSetMeta)
    (rowPkts : List WirePacket) (rs : List Row) :
    ∀ (c : ConnState) (tail : List WirePacket),
      c.pending_result = some m →
      c.incoming = rowPkts ++ tail →
      (∀ p ∈ rowPkts,
        P.is_last_result_set_packet c.capabilities p.bytes = false ∧ p.flags_update = none) →
      List.Forall₂
        (fun (p : WirePacket) (r : Row) =>
          P.read_result_set_row p.bytes m.columns = .ok r) rowPkts rs →
      runGetRows P opts rowPkts.length c = (.ok (rs.map some), { c with incoming := tail }) := by
  intro c tail hm hinc hconds hdec
  induction hdec generalizing c with
  | nil =>
    simp only [List.nil_append] at hinc
    subst hinc
    rfl
  | cons hpr hf ih =>
    rename_i p r ps rs'
    simp only [List.cons_append] at hinc
    have hc := hconds p (by simp)
    simp only [List.length_cons, runGetRows]
    rw [get_row_row P opts c m p (ps ++ tail) r hm hinc hc.1 hc.2 hpr]
    simp only [mbind_ok]
    rw [ih { c with incoming := ps ++ tail } hm rfl
      (fun q hq => hconds q (by simp [hq]))]
    simp only [mbind_ok]
    rfl

lemma runGetRows_add (P : Protocol) (opts : Opts) (a b : Nat) :
    ∀ c : ConnState,
      runGetRows P opts (a + b) c =
        mbind (runGetRows P opts a c) fun rs c =>
          mbind (runGetRows P opts b c) fun rs' c => (.ok (rs ++ rs'), c) := by
  induction a with
  | zero =>
    intro c
    simp only [Nat.zero_add, runGetRows, mbind_ok]
    rcases hr : runGetRows P opts b c with ⟨e | rs', c₁⟩ <;> simp
  | succ n ih =>
    intro c
    have hsa : n + 1 + b = (n + b) + 1 := by omega
    rw [hsa]
    simp only [runGetRows]
    rcases hg : get_row P opts c with ⟨e | r, c₁⟩
    · simp [mbind]
    · simp only [mbind_ok]
      rw [ih c₁]
      rcases h1 : runGetRows P opts n c₁ with ⟨e1 | rs1, c2⟩
      · simp [mbind]
      · simp only [mbind_ok]
        rcases h2 : runGetRows P opts b c2 with ⟨e2 | rs2, c3⟩ <;> simp [mbind]

lemma foldl_push {α β : Type} (g : α → β) :
    ∀ (l : List α) (acc : List β),
      l.foldl (fun acc x => acc ++ [g x]) acc = acc ++ l.map g := by
  intro l
  induction l with
  | nil => intro acc; simp
  | cons x xs ih => intro acc; simp [ih]

lemma reduceLoopF_rows {U : Type} (P : Protocol) (opts : Opts) (m : ResultSetMeta)
    (f : U → Row → U) (rowPkts : List WirePacket) (rs : List Row) :
    ∀ (fuel : Nat) (acc : U) (c : ConnState) (tail : List WirePacket),
      c.pending_result = some m →
      c.incoming = rowPkts ++ tail →
      (∀ p ∈ rowPkts,
        P.is_last_result_set_packet c.capabilities p.bytes = false ∧ p.flags_update = none) →
      List.Forall₂
        (fun (p : WirePacket) (r : Row) =>
          P.read_result_set_row p.bytes m.columns = .ok r) rowPkts rs →
      reduceLoopF P opts f (fuel + rowPkts.length) acc c =
        reduceLoopF P opts f fuel (rs.foldl f acc) { c with incoming := tail } := by
  intro fuel acc c tail hm hinc hconds hdec
  induction hdec generalizing acc c with
  | nil =>
    simp only [List.nil_append] at hinc
    subst hinc
    rfl
  | cons hpr hf ih =>
    rename_i p r ps rs'
    simp only [List.cons_append] at hinc
    have hc := hconds p (by simp)
    have hfu : fuel + (p :: ps).length = (fuel + ps.length) + 1 := by simp; omega
    rw [hfu]
    simp only [reduceLoopF]
    rw [get_row_row P opts c m p (ps ++ tail) r hm hinc hc.1 hc.2 hpr]
    simp only [mbind_ok]
    rw [ih (f acc r) { c with incoming := ps ++ tail } hm rfl
      (fun q hq => hconds q (by simp [hq]))]
    rfl

lemma reduceLoopF_boundary_last {U : Type} (P : Protocol) (opts : Opts) (m : ResultSetMeta)
    (f : U → Row → U) (fuel : Nat) (acc : U) (c : ConnState)
    (term : WirePacket) (rest : List WirePacket)
    (hm : c.pending_result = some m)
    (hinc : c.incoming = term :: rest)
    (hterm : P.is_last_result_set_packet c.capabilities term.bytes = true)
    (hfl : term.flags_update = some false) :
    reduceLoopF P opts f (fuel + 1) acc c =
      (.ok acc, { c with pending_result := none, incoming := rest, status := false }) := by
  simp only [reduceLoopF]
  rw [get_row_boundary_last P opts c m term rest hm hinc hterm hfl]
  simp [mbind]

lemma reduceLoopF_boundary_more_ok {U : Type} (P : Protocol) (opts : Opts) (m : ResultSetMeta)
    (f : U → Row → U) (fuel : Nat) (acc : U) (c : ConnState)
    (term : WirePacket) (rest : List WirePacket) (u : Unit) (c₁ : ConnState)
    (hm : c.pending_result = some m)
    (hinc : c.incoming = term :: rest)
    (hterm : P.is_last_result_set_packet c.capabilities term.bytes = true)
    (hfl : term.flags_update = some true)
    (hnext : read_result_set P opts
        { c with incoming := rest, status := true, syncs := c.syncs + 1 } = (.ok u, c₁)) :
    reduceLoopF P opts f (fuel + 1) acc c = (.ok acc, c₁) := by
  simp only [reduceLoopF]
  rw [get_row_boundary_more_ok P opts c m term rest u c₁ hm hinc hterm hfl hnext]
  simp [mbind]

lemma drop_resultF_post (P : Protocol) (opts : Opts) :
    ∀ (fuel : Nat) (c c' : ConnState),
      drop_resultF P opts fuel c = (.ok (), c') →
      c'.pending_result = none ∧ c'.status = false := by
  intro fuel
  induction fuel with
  | zero =>
    intro c c' h
    simp [drop_resultF] at h
  | succ n ih =>
    intro c c' h
    simp only [drop_resultF] at h
    by_cases hr : has_rows c = false
    · rw [if_pos hr] at h
      by_cases hs : more_results_exists (make_empty c) = true
      · rw [if_pos hs] at h
        rcases hread : read_result_set P opts (make_empty c) with ⟨e | u, c₂⟩
        · rw [hread] at h; simp [mbind] at h
        · rw [hread] at h
          simp only [mbind_ok] at h
          exact ih c₂ c' h
      · rw [if_neg hs] at h
        simp only [Prod.mk.injEq, true_and] at h
        have hc' : make_empty c = c' := h
        subst hc'
        refine ⟨rfl, ?_⟩
        simpa [more_results_exists, make_empty, set_pending_result] using hs
    · rw [if_neg hr] at h
      rcases hread : get_row_raw P opts c with ⟨e | v, c₂⟩
      · rw [hread] at h; simp [mbind] at h
      · rw [hread] at h
        simp only [mbind_ok] at h
        exact ih c₂ c' h

lemma drop_result_post (P : Protocol) (opts : Opts) (c c' : ConnState)
    (h : drop_result P opts c = (.ok (), c')) :
    c'.pending_result = none ∧ c'.status = false :=
  drop_resultF_post P opts (c.incoming.length + 1) c c' h

lemma uploadChunksF_eq :
    ∀ (fuel : Nat) (contents : List Nat) (c : ConnState),
      uploadChunksF fuel contents c =
        { c with written := c.written ++ chunkPacketsF fuel contents } := by
  intro fuel
  induction fuel with
  | zero => intro contents c; rfl
  | succ n ih =>
    intro contents c
    simp only [uploadChunksF, chunkPacketsF]
    by_cases hc : contents.isEmpty = true
    · rw [if_pos hc, if_pos hc]
      have hnil : contents = [] := by simpa using hc
      subst hnil
      rfl
    · rw [if_neg hc, if_neg hc]
      rw [ih (contents.drop 4096) (write_packet (contents.take 4096) c)]
      simp [write_packet]

lemma chunkPacketsF_length :
    ∀ (fuel : Nat) (contents : List Nat),
      contents.length ≤ fuel →
      (chunkPacketsF fuel contents).length = (contents.length + 4095) / 4096 + 1 := by
  intro fuel
  induction fuel with
  | zero =>
    intro contents h
    have hnil : contents = [] := List.eq_nil_of_length_eq_zero (Nat.le_zero.mp h)
    subst hnil
    decide
  | succ n ih =>
    intro contents h
    simp only [chunkPacketsF]
    by_cases hc : contents.isEmpty = true
    · rw [if_pos hc]
      have hnil : contents = [] := by simpa using hc
      subst hnil
      decide
    · rw [if_neg hc]
      have hne : contents ≠ [] := by simpa using hc
      have h1 : 1 ≤ contents.length := List.length_pos.mpr hne
      simp only [List.length_cons]
      rw [ih (contents.drop 4096) (by simp [List.length_drop]; omega)]
      simp only [List.length_drop]
      omega

lemma chunkPacketsF_ne_nil (fuel : Nat) (contents : List Nat) :
    chunkPacketsF fuel contents ≠ [] := by
  cases fuel with
  | zero => simp [chunkPacketsF]
  | succ n =>
    simp only [chunkPacketsF]
    split <;> simp

lemma chunkPacketsF_getLast :
    ∀ (fuel : Nat) (contents : List Nat),
      contents.length ≤ fuel →
      (chunkPacketsF fuel contents).getLast? = some [] := by
  intro fuel
  induction fuel with
  | zero =>
    intro contents h
    have hnil : contents = [] := List.eq_nil_of_length_eq_zero (Nat.le_zero.mp h)
    subst hnil
    rfl
  | succ n ih =>
    intro contents h
    simp only [chunkPacketsF]
    by_cases hc : contents.isEmpty = true
    · rw [if_pos hc]; rfl
    · rw [if_neg hc]
      have hne : contents ≠ [] := by simpa using hc
      have h1 : 1 ≤ contents.length := List.length_pos.mpr hne
      have hrec := ih (contents.drop 4096) (by simp [List.length_drop]; omega)
      obtain ⟨y, ys, hys⟩ :=
        List.exists_cons_of_ne_nil (chunkPacketsF_ne_nil n (contents.drop 4096))
      rw [hys] at hrec ⊢
      rw [List.getLast?_cons_cons]
      exact hrec

lemma reduce_rows_last {T U : Type} (P : Protocol) (opts : Opts) (m : ResultSetMeta)
    (conv : Row → T) (init : U) (f : U → T → U)
    (rowPkts : List WirePacket) (rs : List Row) (c : ConnState)
    (term : WirePacket) (rest : List WirePacket)
    (hm : c.pending_result = some m)
    (hinc : c.incoming = rowPkts ++ term :: rest)
    (hconds : ∀ p ∈ rowPkts,
      P.is_last_result_set_packet c.capabilities p.bytes = false ∧ p.flags_update = none)
    (hdec : List.Forall₂
      (fun (p : WirePacket) (r : Row) =>
        P.read_result_set_row p.bytes m.columns = .ok r) rowPkts rs)
    (hterm : P.is_last_result_set_packet c.capabilities term.bytes = true)
    (hfl : term.flags_update = some false) :
    reduce P opts conv init f c =
      (.ok (rs.foldl (fun a r => f a (conv r)) init),
       { c with pending_result := none, incoming := rest, status := false }) := by
  unfold reduce
  rw [is_empty_some hm]
  simp only [Bool.false_eq_true, if_false]
  have hflen : c.incoming.length + 1 = (rest.length + 1 + 1) + rowPkts.length := by
    rw [hinc]; simp [List.length_append]; omega
  rw [hflen]
  rw [reduceLoopF_rows P opts m _ rowPkts rs (rest.length + 1 + 1) init c (term :: rest)
    hm hinc hconds hdec]
  exact reduceLoopF_boundary_last P opts m _ (rest.length + 1) _ _ term rest hm rfl hterm hfl

lemma reduce_rows_more_ok {T U : Type} (P : Protocol) (opts : Opts) (m : ResultSetMeta)
    (conv : Row → T) (init : U) (f : U → T → U)
    (rowPkts : List WirePacket) (rs : List Row) (c : ConnState)
    (term : WirePacket) (rest : List WirePacket) (u : Unit) (c₁ : ConnState)
    (hm : c.pending_result = some m)
    (hinc : c.incoming = rowPkts ++ term :: rest)
    (hconds : ∀ p ∈ rowPkts,
      P.is_last_result_set_packet c.capabilities p.bytes = false ∧ p.flags_update = none)
    (hdec : List.Forall₂
      (fun (p : WirePacket) (r : Row) =>
        P.read_result_set_row p.bytes m.columns = .ok r) rowPkts rs)
    (hterm : P.is_last_result_set_packet c.capabilities term.bytes = true)
    (hfl : term.flags_update = some true)
    (hnext : read_result_set P opts
        { c with incoming := rest, status := true, syncs := c.syncs + 1 } = (.ok u, c₁)) :
    reduce P opts conv init f c =
      (.ok (rs.foldl (fun a r => f a (conv r)) init), c₁) := by
  unfold reduce
  rw [is_empty_some hm]
  simp only [Bool.false_eq_true, if_false]
  have hflen : c.incoming.length + 1 = (rest.length + 1 + 1) + rowPkts.length := by
    rw [hinc]; simp [List.length_append]; omega
  rw [hflen]
  rw [reduceLoopF_rows P opts m _ rowPkts rs (rest.length + 1 + 1) init c (term :: rest)
    hm hinc hconds hdec]
  exact reduceLoopF_boundary_more_ok P opts m _ (rest.length + 1) _ _ term rest u c₁
    hm rfl hterm hfl hnext

lemma get_row_raw_some (P : Protocol) (opts : Opts) (c c' : ConnState) (pkt : List Nat)
    (h : get_row_raw P opts c = (.ok (some pkt), c')) :
    c'.pending_result = c.pending_result ∧ c.pending_result.isSome = true := by
  unfold get_row_raw at h
  by_cases he : is_empty c = true
  · rw [if_pos he] at h
    simp at h
  · rw [if_neg he] at h
    rcases hp : read_packet c with ⟨e | pk, c₁⟩
    · rw [hp] at h; simp [mbind] at h
    · rw [hp] at h
      simp only [mbind_ok] at h
      by_cases hl : P.is_last_result_set_packet c₁.capabilities pk = true
      · rw [if_pos hl] at h
        by_cases hmr : more_results_exists c₁ = true
        · rw [if_pos hmr] at h
          rcases hrs : read_result_set P opts (sync_seq_id c₁) with ⟨e2 | u, c₂⟩
          · rw [hrs] at h; simp [mbind] at h
          · rw [hrs] at h; simp [mbind] at h
        · rw [if_neg hmr] at h; simp at h
      · rw [if_neg hl] at h
        simp only [Prod.mk.injEq, Except.ok.injEq, Option.some.injEq] at h
        obtain ⟨hv, hc⟩ := h
        subst hc
        constructor
        · have hpp := read_packet_pending c
          rw [hp] at hpp
          exact hpp
        · rcases hpc : c.pending_result with _ | m
          · exfalso
            exact he (by simp [is_empty, has_rows, meta, hpc])
          · rfl

/-- Claim C1: for a result set of N ≥ 0 row packets followed by its terminal
packet with the more-results flag clear, N calls of `get_row` return the N
decoded rows in server order, the (N+1)-th call returns `none`, and
afterwards the pending result is `none` and `is_empty` holds. -/
theorem c1_get_row_streams_rows (P : Protocol) (opts : Opts) (m : ResultSetMeta)
    (rowPkts : List WirePacket) (rs : List Row) (c : ConnState)
    (term : WirePacket) (rest : List WirePacket)
    (hm : c.pending_result = some m)
    (hinc : c.incoming = rowPkts ++ term :: rest)
    (hconds : ∀ p ∈ rowPkts,
      P.is_last_result_set_packet c.capabilities p.bytes = false ∧ p.flags_update = none)
    (hdec : List.Forall₂
      (fun (p : WirePacket) (r : Row) =>
        P.read_result_set_row p.bytes m.columns = .ok r) rowPkts rs)
    (hterm : P.is_last_result_set_packet c.capabilities term.bytes = true)
    (hfl : term.flags_update = some false) :
    runGetRows P opts rowPkts.length c =
      (.ok (rs.map some), { c with incoming := term :: rest }) ∧
    runGetRows P opts (rowPkts.length + 1) c =
      (.ok (rs.map some ++ [none]),
       { c with pending_result := none, incoming := rest, status := false }) ∧
    is_empty { c with pending_result := none, incoming := rest, status := false } = true := by
  have h1 := runGetRows_rows P opts m rowPkts rs c (term :: rest) hm hinc hconds hdec
  refine ⟨h1, ?_, rfl⟩
  rw [runGetRows_add P opts rowPkts.length 1 c, h1]
  simp only [mbind_ok]
  simp only [runGetRows]
  rw [get_row_boundary_last P opts { c with incoming := term :: rest } m term rest
    hm rfl hterm hfl]
  simp [mbind]

/-- Claim C2: when `get_row_raw` reads the terminal packet of the current
result set, then with the more-results flag set it resynchronizes the
sequence id, reads the next result-set header by the same classification as
initial dispatch, and returns `none`; with the flag clear it clears the
pending result and returns `none`. -/
theorem c2_boundary_dispatch (P : Protocol) (opts : Opts) (c : ConnState) (m : ResultSetMeta)
    (term : WirePacket) (rest : List WirePacket) (b : Bool) (cB : ConnState)
    (hm : c.pending_result = some m)
    (hinc : c.incoming = term :: rest)
    (hterm : P.is_last_result_set_packet c.capabilities term.bytes = true)
    (hfl : term.flags_update = some b)
    (hcB : cB = { c with incoming := rest, status := true, syncs := c.syncs + 1 }) :
    (b = true →
      get_row_raw P opts c =
        ((read_result_set P opts cB).1.map (fun _ => (none : Option (List Nat))),
         (read_result_set P opts cB).2)) ∧
    (b = false →
      get_row_raw P opts c =
        (.ok none, { c with pending_result := none, incoming := rest, status := false })) := by
  subst hcB
  constructor
  · intro hb
    subst hb
    exact get_row_raw_boundary_more P opts c m term rest hm hinc hterm hfl
  · intro hb
    subst hb
    exact get_row_raw_boundary_last P opts c m term rest hm hinc hterm hfl

/-- Claim C3: a successful `drop_result` always ends with the pending result
cleared and the more-results flag clear (no result sets left unconsumed),
and consequently `collect_and_drop` on a multi-result-set query returns
exactly the first result set's rows and leaves the connection in that clean
state. -/
theorem c3_drop_result_clean {R : Type} (P : Protocol) (opts : Opts) (from_row : Row → R)
    (m : ResultSetMeta) (rowPkts : List WirePacket) (rs : List Row) (c : ConnState)
    (term : WirePacket) (rest : List WirePacket) (u : Unit) (c₁ c₂ : ConnState)
    (hm : c.pending_result = some m)
    (hinc : c.incoming = rowPkts ++ term :: rest)
    (hconds : ∀ p ∈ rowPkts,
      P.is_last_result_set_packet c.capabilities p.bytes = false ∧ p.flags_update = none)
    (hdec : List.Forall₂
      (fun (p : WirePacket) (r : Row) =>
        P.read_result_set_row p.bytes m.columns = .ok r) rowPkts rs)
    (hterm : P.is_last_result_set_packet c.capabilities term.bytes = true)
    (hfl : term.flags_update = some true)
    (hnext : read_result_set P opts
        { c with incoming := rest, status := true, syncs := c.syncs + 1 } = (.ok u, c₁))
    (hdrop : drop_result P opts c₁ = (.ok (), c₂)) :
    (∀ c₀ c₀' : ConnState, drop_result P opts c₀ = (.ok (), c₀') →
      c₀'.pending_result = none ∧ c₀'.status = false) ∧
    collect_and_drop P opts from_row c = (.ok (rs.map from_row), c₂) ∧
    c₂.pending_result = none ∧ c₂.status = false := by
  refine ⟨fun c₀ c₀' h => drop_result_post P opts c₀ c₀' h, ?_,
    (drop_result_post P opts c₁ c₂ hdrop).1, (drop_result_post P opts c₁ c₂ hdrop).2⟩
  unfold collect_and_drop collect
  rw [reduce_rows_more_ok P opts m (fun r => r) []
    (fun acc row => acc ++ [from_row row]) rowPkts rs c term rest u c₁
    hm hinc hconds hdec hterm hfl hnext]
  simp only [mbind_ok]
  rw [hdrop]
  simp only [mbind_ok]
  simp [foldl_push]

/-- Claim C4 (amended): the uploader writes the byte source as
`⌈L / 4096⌉` data chunks followed by one final empty chunk — in total
`⌈L / 4096⌉ + 1` packets (one, even when L = 0), and the last written chunk
is always the empty one — stopping only once a read returns 0 bytes; it
then reads exactly one acknowledgement packet and clears the pending
result. -/
theorem c4_upload_chunk_count (opts : Opts)
    (handler : List Nat → Except MyError (List Nat))
    (fname contents : List Nat) (c : ConnState) (ack : WirePacket)
    (rest : List WirePacket)
    (hh : opts.local_infile_handler = some handler)
    (hc : handler fname = .ok contents)
    (hinc : c.incoming = ack :: rest) :
    handle_local_infile opts (0xFB :: fname) c =
      (.ok (), { c with pending_result := none,
                        incoming := rest,
                        written := c.written ++ chunk_packets contents,
                        status := ack.flags_update.getD c.status }) ∧
    (chunk_packets contents).length = (contents.length + 4095) / 4096 + 1 ∧
    1 ≤ (chunk_packets contents).length ∧
    (chunk_packets contents).getLast? = some [] := by
  refine ⟨?_, chunkPacketsF_length contents.length contents le_rfl, ?_,
    chunkPacketsF_getLast contents.length contents le_rfl⟩
  · unfold handle_local_infile
    simp only [parse_local_infile_packet, if_true, hh, hc]
    rw [uploadChunksF_eq contents.length contents c]
    rw [read_packet_cons { c with written := c.written ++ chunkPacketsF contents.length contents }
      ack rest hinc]
    simp only [mbind_ok]
    rfl
  · rw [show (chunk_packets contents).length = (contents.length + 4095) / 4096 + 1 from
      chunkPacketsF_length contents.length contents le_rfl]
    omega

/-- Claim C5: `read_result_set` classifies the first response packet by its
leading byte: `0x00` clears the pending result, `0xFB` dispatches to the
local-infile handler, and any other packet is parsed as a length-encoded
column count followed by that many column definitions, after which a zero
count clears the pending result while a positive count sets it to the
protocol variant's meta over the parsed columns. -/
theorem c5_read_result_set_classification (P : Protocol) (opts : Opts) (c : ConnState)
    (p : WirePacket) (rest : List WirePacket) (c₁ : ConnState)
    (hinc : c.incoming = p :: rest)
    (hc₁ : c₁ = { c with incoming := rest, status := p.flags_update.getD c.status }) :
    (p.bytes.head? = some 0x00 →
      read_result_set P opts c = (.ok (), set_pending_result none c₁)) ∧
    (p.bytes.head? = some 0xFB →
      read_result_set P opts c = handle_local_infile opts p.bytes c₁) ∧
    (∀ (b n : Nat) (rest' : List Nat) (cols : List Column) (c₂ : ConnState),
      p.bytes.head? = some b → b ≠ 0x00 → b ≠ 0xFB →
      read_lenenc_int p.bytes = .ok (n, rest') →
      read_column_defs n c₁ = (.ok cols, c₂) →
      read_result_set P opts c =
        (.ok (), set_pending_result
          (if 0 < n then some (P.result_set_meta cols) else none) c₂)) := by
  subst hc₁
  unfold read_result_set
  rw [read_packet_cons c p rest hinc]
  simp only [mbind_ok]
  refine ⟨fun h0 => ?_, fun hfb => ?_, fun b n rest' cols c₂ hb h0 hfb hlen hcols => ?_⟩
  · rw [if_pos h0]
  · rw [if_neg (by rw [hfb]; decide), if_pos hfb]
  · rw [if_neg (by rw [hb]; simpa using h0), if_neg (by rw [hb]; simpa using hfb)]
    unfold handle_result_set
    rw [hlen]
    simp only [mbind_ok]
    rw [hcols]
    simp only [mbind_ok]
    by_cases hn : 0 < n
    · rw [if_pos hn, if_pos hn]
    · rw [if_neg hn, if_neg hn]

/-- Claim C6: on a result set whose N rows all decode, `try_collect` with a
per-row converter returns `Ok` with exactly N entries — each entry the
converter's verdict on the corresponding row, so exactly the offending rows
are failure values — and consumes the stream to the result-set boundary. -/
theorem c6_try_collect_per_row {R : Type} (P : Protocol) (opts : Opts)
    (from_row_opt : Row → Except Row R) (m : ResultSetMeta)
    (rowPkts : List WirePacket) (rs : List Row) (c : ConnState)
    (term : WirePacket) (rest : List WirePacket)
    (hm : c.pending_result = some m)
    (hinc : c.incoming = rowPkts ++ term :: rest)
    (hconds : ∀ p ∈ rowPkts,
      P.is_last_result_set_packet c.capabilities p.bytes = false ∧ p.flags_update = none)
    (hdec : List.Forall₂
      (fun (p : WirePacket) (r : Row) =>
        P.read_result_set_row p.bytes m.columns = .ok r) rowPkts rs)
    (hterm : P.is_last_result_set_packet c.capabilities term.bytes = true)
    (hfl : term.flags_update = some false) :
    try_collect P opts from_row_opt c =
      (.ok (rs.map from_row_opt),
       { c with pending_result := none, incoming := rest, status := false }) ∧
    (rs.map from_row_opt).length = rowPkts.length := by
  constructor
  · unfold try_collect
    rw [reduce_rows_last P opts m (fun r => r) []
      (fun acc row => acc ++ [from_row_opt row]) rowPkts rs c term rest
      hm hinc hconds hdec hterm hfl]
    simp [foldl_push]
  · simp [hdec.length_eq]

/-- Claim C7: when the server requests a local infile and no handler is
registered, `handle_local_infile` fails with the missing-handler
configuration error and leaves the connection state untouched: nothing is
written, nothing is read, and the (absent) handler is never consulted. -/
theorem c7_no_handler_error (opts : Opts) (c : ConnState) (fname : List Nat)
    (h : opts.local_infile_handler = none) :
    handle_local_infile opts (0xFB :: fname) c = (.error .noLocalInfileHandler, c) := by
  unfold handle_local_infile
  simp only [parse_local_infile_packet, if_true, h]

/-- Claim C8: with no pending result, any number of `get_row` calls return
`Ok(none)` and leave the connection state — pending result, status flags,
sync counter, incoming and written packet streams, response metadata —
entirely unchanged, performing no packet I/O. -/
theorem c8_empty_noop (P : Protocol) (opts : Opts) (c : ConnState)
    (h : c.pending_result = none) :
    ∀ n : Nat, runGetRows P opts n c = (.ok (List.replicate n none), c) := by
  intro n
  induction n with
  | zero => rfl
  | succ k ih =>
    simp only [runGetRows]
    have hg : get_row P opts c = (.ok none, c) := by
      unfold get_row get_row_raw
      simp [is_empty, has_rows, meta, h, mbind]
    rw [hg]
    simp only [mbind_ok]
    rw [ih]
    simp [List.replicate_succ]

/-- Claim C9: whenever `get_row_raw` returns a raw row packet, the pending
result was `some` on entry and is returned unchanged, so `get_row`'s meta
lookup (the `expect("must be here")`) always succeeds and `get_row`
proceeds to the row-decoding branch. -/
theorem c9_meta_present (P : Protocol) (opts : Opts) (c c' : ConnState) (pkt : List Nat)
    (h : get_row_raw P opts c = (.ok (some pkt), c')) :
    c'.pending_result = c.pending_result ∧ c.pending_result.isSome = true ∧
    ∃ m, c'.pending_result = some m ∧
      get_row P opts c =
        (match P.read_result_set_row pkt m.columns with
         | .error e => (.error e, c')
         | .ok row => (.ok (some row), c')) := by
  obtain ⟨hpe, hsome⟩ := get_row_raw_some P opts c c' pkt h
  refine ⟨hpe, hsome, ?_⟩
  obtain ⟨m, hm⟩ := Option.isSome_iff_exists.mp (show c'.pending_result.isSome = true by
    rw [hpe]; exact hsome)
  refine ⟨m, hm, ?_⟩
  unfold get_row
  rw [h]
  simp only [mbind_ok]
  simp [meta, hm]

/-- Claim C10: at the "no pending result but more results flagged" boundary,
`drop_result` reads the next result-set header from the state left by
`make_empty`, whose sequence-id sync counter is unchanged (no
resynchronization), whereas `get_row_raw`'s boundary transition feeds
`read_result_set` a state whose sync counter was incremented by
`sync_seq_id`. -/
theorem c10_drop_result_no_sync (P : Protocol) (opts : Opts) :
    (∀ c : ConnState, c.pending_result = none → c.status = true →
      drop_result P opts c =
        mbind (read_result_set P opts (make_empty c))
          (fun _ c' => drop_resultF P opts c.incoming.length c') ∧
      (make_empty c).syncs = c.syncs) ∧
    (∀ (c : ConnState) (m : ResultSetMeta) (term : WirePacket)
        (rest : List WirePacket) (u : Unit) (c₁ : ConnState),
      c.pending_result = some m →
      c.incoming = term :: rest →
      P.is_last_result_set_packet c.capabilities term.bytes = true →
      term.flags_update = some true →
      read_result_set P opts
        { c with incoming := rest, status := true, syncs := c.syncs + 1 } = (.ok u, c₁) →
      get_row_raw P opts c = (.ok none, c₁) ∧
      ({ c with incoming := rest, status := true,
                syncs := c.syncs + 1 } : ConnState).syncs = c.syncs + 1) := by
  constructor
  · intro c hpend hst
    refine ⟨?_, rfl⟩
    unfold drop_result
    simp only [drop_resultF]
    rw [if_pos (show has_rows c = false by simp [has_rows, meta, hpend])]
    rw [if_pos (show more_results_exists (make_empty c) = true by
      simpa [more_results_exists, make_empty, set_pending_result] using hst)]
  · intro c m term rest u c₁ hm hinc hterm hfl hnext
    exact ⟨get_row_raw_boundary_more_ok P opts c m term rest u c₁ hm hinc hterm hfl hnext, rfl⟩

/-- Witness for C1 on a concrete two-row result set. -/
theorem c1_witness :
    runGetRows wprot wopts 2 wconn =
      (.ok [some [10], some [20]], { wconn with incoming := [wtermF] }) ∧
    runGetRows wprot wopts 3 wconn =
      (.ok [some [10], some [20], none],
       { wconn with pending_result := none, incoming := [], status := false }) ∧
    is_empty { wconn with pending_result := none, incoming := [], status := false } = true :=
  c1_get_row_streams_rows wprot wopts wmeta [wrow 10, wrow 20] [[10], [20]] wconn wtermF []
    rfl rfl (by decide)
    (List.Forall₂.cons rfl (List.Forall₂.cons rfl List.Forall₂.nil))
    (by decide) rfl

/-- Witness for C2 on a concrete flagged terminal packet. -/
theorem c2_witness :
    get_row_raw wprot wopts wconnM =
      ((read_result_set wprot wopts wcB).1.map (fun _ => (none : Option (List Nat))),
       (read_result_set wprot wopts wcB).2) :=
  (c2_boundary_dispatch wprot wopts wconnM wmeta wtermT [wok] true wcB
    rfl rfl (by decide) rfl rfl).1 rfl

/-- Witness for C3 on a concrete two-result-set wire. -/
theorem c3_witness :
    collect_and_drop wprot wopts (fun r => r) wconn3 = (.ok [[10]], wc2) ∧
    wc2.pending_result = none ∧ wc2.status = false :=
  (c3_drop_result_clean wprot wopts (fun r => r) wmeta [wrow 10] [[10]] wconn3 wtermT
    [whdr, wcol, wrow 30, wtermF] () wc1 wc2
    rfl rfl (by decide)
    (List.Forall₂.cons rfl List.Forall₂.nil)
    (by decide) rfl (by decide) (by decide)).2

/-- Witness for C4 (amended) on a concrete one-byte upload. -/
theorem c4_witness :
    handle_local_infile wopts1 [0xFB] wconnLI =
      (.ok (), { wconnLI with pending_result := none,
                              incoming := [],
                              written := wconnLI.written ++ chunk_packets [7],
                              status := wok.flags_update.getD wconnLI.status }) ∧
    (chunk_packets [7]).length = (([7] : List Nat).length + 4095) / 4096 + 1 ∧
    1 ≤ (chunk_packets [7]).length ∧
    (chunk_packets [7]).getLast? = some [] :=
  c4_upload_chunk_count wopts1 (fun _ => .ok [7]) [] [7] wconnLI wok [] rfl rfl rfl

/-- Counterexample for C4 as stated: for a byte source of length 1 the claim
predicts exactly `⌈1 / 4096⌉ = 1` written chunk packet, but the uploader
writes two packets — the one-byte chunk and the empty terminal chunk. -/
theorem c4_counterexample :
    handle_local_infile wopts1 [0xFB] wconnLI =
      (.ok (), { wconnLI with pending_result := none,
                              incoming := [],
                              written := [[7], []],
                              status := false }) ∧
    ([[7], []] : List (List Nat)).length ≠ (1 + 4096 - 1) / 4096 := by
  decide

/-- Witness for C5 on a concrete one-column result-set header. -/
theorem c5_witness :
    read_result_set wprot wopts wconn5 =
      (.ok (), set_pending_result
        (if 0 < 1 then some (wprot.result_set_meta [[99]]) else none) wc5b) :=
  (c5_read_result_set_classification wprot wopts wconn5 whdr [wcol] wc5a rfl rfl).2.2
    1 1 [] [[99]] wc5b rfl (by decide) (by decide) rfl rfl

/-- Witness for C6 on a concrete two-row result set where the converter
rejects the first row. -/
theorem c6_witness :
    try_collect wprot wopts wconv wconn =
      (.ok ([[10], [20]].map wconv),
       { wconn with pending_result := none, incoming := [], status := false }) ∧
    (([[10], [20]] : List Row).map wconv).length = 2 :=
  c6_try_collect_per_row wprot wopts wconv wmeta [wrow 10, wrow 20] [[10], [20]] wconn
    wtermF [] rfl rfl (by decide)
    (List.Forall₂.cons rfl (List.Forall₂.cons rfl List.Forall₂.nil))
    (by decide) rfl

/-- Witness for C7: the missing-handler error on a concrete request. -/
theorem c7_witness :
    handle_local_infile wopts [0xFB, 1] wconnLI = (.error .noLocalInfileHandler, wconnLI) :=
  c7_no_handler_error wopts wconnLI [1] rfl

/-- Witness for C8: five empty pulls on a concrete drained connection. -/
theorem c8_witness :
    runGetRows wprot wopts 5 wc2 = (.ok (List.replicate 5 none), wc2) :=
  c8_empty_noop wprot wopts wc2 rfl 5

/-- Witness for C9 on a concrete row pull. -/
theorem c9_witness :
    wc9.pending_result = wconn.pending_result ∧ wconn.pending_result.isSome = true ∧
    ∃ m, wc9.pending_result = some m ∧
      get_row wprot wopts wconn =
        (match wprot.read_result_set_row [10] m.columns with
         | .error e => (.error e, wc9)
         | .ok row => (.ok (some row), wc9)) :=
  c9_meta_present wprot wopts wconn wc9 [10] (by decide)

/-- Witness for C10 at both boundaries: `drop_result` on a concrete
exhausted-but-flagged state reads the next header without a sync, and
`get_row_raw` on a concrete flagged terminal reads it after one sync. -/
theorem c10_witness :
    (drop_result wprot wopts wc10 =
      mbind (read_result_set wprot wopts (make_empty wc10))
        (fun _ c' => drop_resultF wprot wopts wc10.incoming.length c') ∧
     (make_empty wc10).syncs = wc10.syncs) ∧
    (get_row_raw wprot wopts wconnM = (.ok none, wcM1) ∧
     ({ wconnM with incoming := [wok], status := true,
                    syncs := wconnM.syncs + 1 } : ConnState).syncs = wconnM.syncs + 1) :=
  ⟨(c10_drop_result_no_sync wprot wopts).1 wc10 rfl rfl,
   (c10_drop_result_no_sync wprot wopts).2 wconnM wmeta wtermT [wok] () wcM1
     rfl rfl (by decide) rfl (by decide)⟩

end Mysql
